import Mathlib

/-!
Verification development for the NotebookLM browser-automation client
(`notebooklm_mcp/client.py`).  The response-completion core is embedded
shallowly: text is modelled as `List Char`, the Python string operations
(`strip`, `lower`, `split`, `join`, `endswith`, substring `in`) are defined
below with Python semantics (whitespace restricted to the ASCII whitespace
characters, lower-casing to ASCII), fallible Selenium calls are modelled
with `Except`, and the blocking 1-second poll loop of
`_wait_for_streaming_response` is modelled as a tick-indexed scripted run
(tick `k` runs iff `k ≤ maxWait`, since each iteration costs one second
and the loop guard is `elapsed < maxWait`).
-/

namespace NotebookLM

/-- Texts are lists of characters (Python `str`). -/
abbrev Text := List Char

/-- ASCII whitespace, as stripped by Python `str.strip()`. -/
def isPySpace (c : Char) : Bool :=
  c = ' ' ∨ c = '\t' ∨ c = '\n' ∨ c = '\r' ∨ c = '\x0b' ∨ c = '\x0c'

/-- Python `str.strip()`: drop leading and trailing whitespace. -/
def strip (l : Text) : Text :=
  ((l.dropWhile isPySpace).reverse.dropWhile isPySpace).reverse

/-- Python `str.lower()` (ASCII). -/
def lower (l : Text) : Text := l.map Char.toLower

/-- Python substring test `sub in l`. -/
def containsSub (sub : Text) : Text → Bool
  | [] => sub.isEmpty
  | c :: rest => sub.isPrefixOf (c :: rest) || containsSub sub rest

/-- Python `str.split(sep)`, by structural recursion on a fuel bounding
the length of the text: a match of the (non-empty) separator at the front
starts a new piece, otherwise the head character joins the current
piece. -/
def pySplitAux (sep : Text) : Nat → Text → List Text
  | _, [] => [[]]
  | 0, l => [l]
  | fuel + 1, c :: rest =>
    if sep ≠ [] ∧ sep.isPrefixOf (c :: rest) then
      [] :: pySplitAux sep fuel ((c :: rest).drop sep.length)
    else
      match pySplitAux sep fuel rest with
      | [] => [[c]]
      | p :: ps => (c :: p) :: ps

/-- Python `str.split(sep)` for a non-empty separator (for `sep = []` it
returns the whole text as a single piece, a case never used). -/
def pySplit (sep l : Text) : List Text := pySplitAux sep l.length l

/-- Python `sep.join(pieces)`. -/
def joinSep (sep : Text) : List Text → Text
  | [] => []
  | [x] => x
  | x :: y :: ys => x ++ sep ++ joinSep sep (y :: ys)

/-- Splitting on newline (Python `text.split("\n")`). -/
def splitLines (l : Text) : List Text := pySplit ['\n'] l

/-- Joining with newline (Python `"\n".join(lines)`). -/
def joinLines (ls : List Text) : Text := joinSep ['\n'] ls


/-! ## Response cleaner (`_clean_response_text`, client.py 356–449) -/

/-- UI artifact tokens removed by the cleaner (client.py 362–370). -/
def uiArtifacts : List Text :=
  ["copy_all", "thumb_up", "thumb_down", "share", "more_options",
   "like", "dislike"].map String.toList

/-- Phrases indicating the start of an AI response (client.py 399–409). -/
def aiResponseIndicators : List Text :=
  ["Mixture-of-Experts", "Based on", "According to", "Here\x27s",
   "Let me", "I can", "The answer", "To answer"].map String.toList

/-- Step 1 of the cleaner (client.py 371–373): for each artifact in order,
if the text ends with it, cut it off and strip. -/
def stripTrailingArtifacts (t : Text) : Text :=
  uiArtifacts.foldl
    (fun acc a =>
      if a.isSuffixOf acc then strip (acc.take (acc.length - a.length)) else acc)
    t

/-- A line dropped by step 2 of the cleaner (client.py 379–390): its
stripped lower-cased form is exactly an artifact, or it is short (< 50)
and contains an artifact as a substring. -/
def isArtifactLine (l : Text) : Bool :=
  let lc := lower (strip l)
  uiArtifacts.contains lc ||
    (uiArtifacts.any (fun a => containsSub a lc) && lc.length < 50)

/-- Step 2 of the cleaner (client.py 376–392): drop artifact-only lines,
rejoin, strip. -/
def dropArtifactLines (t : Text) : Text :=
  strip (joinLines ((splitLines t).filter (fun l => ¬ isArtifactLine l)))

/-- A line where the AI response is taken to begin (client.py 411–423):
nonempty stripped form containing a response indicator, or stripped length
over 50 and not ending in a question mark. -/
def isAnswerStart (l : Text) : Bool :=
  let lc := strip l
  (¬ lc.isEmpty && aiResponseIndicators.any (fun ind => containsSub ind lc)) ||
    (50 < lc.length && lc.getLast? ≠ some '?')

/-- Index of the first answer-start line, 0 when none is found
(client.py 412–423). -/
def echoStartIndex (lines : List Text) : Nat :=
  match lines.findIdx? isAnswerStart with
  | some i => i
  | none => 0

/-- Step 3 of the cleaner (client.py 394–426): drop all lines before the
first answer-start line, rejoin, strip. -/
def echoRemoved (t : Text) : Text :=
  strip (joinLines ((splitLines t).drop (echoStartIndex (splitLines t))))

/-- Step 4 of the cleaner (client.py 428–435): first paragraph whose
stripped form exceeds 100 characters, stripped. -/
def firstBigParagraph (t : Text) : Option Text :=
  ((pySplit ['\n', '\n'] t).find? (fun p => 100 < (strip p).length)).map strip

/-- Steps 3–4 of the cleaner (client.py 394–435) applied to the
artifact-stripped text `t2`: echo removal, then the big-paragraph fallback
when the result is empty or under 50 characters. -/
def cleanTier4 (t2 : Text) : Text :=
  if echoRemoved t2 = [] ∨ (echoRemoved t2).length < 50 then
    match firstBigParagraph t2 with
    | some p => p
    | none => echoRemoved t2
  else echoRemoved t2

/-- Step 5 of the cleaner (client.py 437–447): when the text has more than
one line and the stripped first line ends in `?` or is under 100
characters, drop the first line; otherwise keep `t2` unmodified. -/
def cleanTier5 (t2 : Text) : Text :=
  match splitLines t2 with
  | l0 :: _ :: _ =>
    if (strip l0).getLast? = some '?' ∨ (strip l0).length < 100 then
      strip (joinLines ((splitLines t2).drop 1))
    else t2
  | _ => t2

/-- Full cleaner `_clean_response_text` (client.py 356–449).  The Python
variable `response_text` after the artifact steps is `t2`; `lines` at line
395 is `splitLines t2`, reused by the final fallback. -/
def cleanResponseText (t : Text) : Text :=
  if t = [] then t
  else if cleanTier4 (dropArtifactLines (stripTrailingArtifacts t)) = [] ∨
      (cleanTier4 (dropArtifactLines (stripTrailingArtifacts t))).length < 50 then
    cleanTier5 (dropArtifactLines (stripTrailingArtifacts t))
  else cleanTier4 (dropArtifactLines (stripTrailingArtifacts t))

/-- First line of a text. -/
def firstLine (t : Text) : Text :=
  match splitLines t with
  | l :: _ => l
  | [] => []

/-! ## Page driver model

A DOM element exposes Selenium's `.text` and `.is_displayed()`, either of
which may raise; a driver answers `find_elements(By.CSS_SELECTOR, sel)`,
which may also raise.  `Except Unit` models "raised some exception". -/

structure Elem where
  text : Except Unit Text
  displayed : Except Unit Bool

structure Driver where
  findElements : String → Except Unit (List Elem)

/-! ## Text extractor (`_get_current_response`, client.py 291–354) -/

/-- Response selectors, in priority order (client.py 296–307). -/
def responseSelectors : List String :=
  ["[data-testid*=\x27response\x27]",
   "[data-testid*=\x27message\x27]",
   "[role=\x27article\x27]",
   "[class*=\x27message\x27]:last-child",
   "[class*=\x27response\x27]:last-child",
   "[class*=\x27chat-message\x27]:last-child",
   ".message:last-child",
   ".chat-bubble:last-child",
   "[class*=\x27ai-response\x27]",
   "[class*=\x27assistant-message\x27]"]

/-- Phrase fragments that disqualify fallback text (client.py 334–343). -/
def skipFragments : List Text :=
  ["ask about", "loading", "error", "sign in", "menu",
   "copy_all", "thumb_up", "thumb_down"].map String.toList

/-- One iteration of the selector loop (client.py 311–322): the stripped
text of the LAST element matched by `sel`, `none` when the selector throws,
matches nothing, or reading the text throws. -/
def selectorCandidate (drv : Driver) (sel : String) : Option Text :=
  match (do
      let es ← drv.findElements sel
      match es.getLast? with
      | none => pure none
      | some e => do
        let t ← e.text
        pure (some (strip t)) : Except Unit (Option Text)) with
  | .ok r => r
  | .error _ => none

/-- The candidate texts the selector loop actually compares, in selector
priority order. -/
def candidates (drv : Driver) : List Text :=
  responseSelectors.filterMap (selectorCandidate drv)

/-- The `len(text) > len(best_response)` accumulation (client.py 318). -/
def longestCandidate (cands : List Text) : Text :=
  cands.foldl (fun b t => if b.length < t.length then t else b) []

/-- The fallback scan over the last 20 generic elements in reverse order
(client.py 324–348): first stripped text longer than 50 characters free of
skip fragments. -/
def fallbackScan : List Elem → Except Unit (Option Text)
  | [] => pure none
  | e :: rest => do
    let t ← e.text
    let t := strip t
    if 50 < t.length ∧ ¬ skipFragments.any (fun sk => containsSub sk (lower t)) then
      pure (some t)
    else fallbackScan rest

/-- The fallback block (client.py 324–348); an exception anywhere leaves
`best_response` empty. -/
def fallbackResponse (drv : Driver) : Text :=
  match (do
      let es ← drv.findElements "p, div, span"
      fallbackScan ((es.drop (es.length - 20)).reverse) : Except Unit (Option Text)) with
  | .ok (some t) => t
  | _ => []

/-- The raw extraction (selector loop plus fallback), before cleaning. -/
def extractRaw (drv : Driver) : Text :=
  if longestCandidate (candidates drv) = [] then fallbackResponse drv
  else longestCandidate (candidates drv)

/-- Sentinel returned when nothing is extracted (client.py 354). -/
def noContentSentinel : Text := "No response content found".toList

/-- The `best_response` variable right before the final return
(client.py 350–352): cleaned when non-empty. -/
def cleanedExtract (drv : Driver) : Text :=
  if extractRaw drv ≠ [] then cleanResponseText (extractRaw drv)
  else extractRaw drv

/-- `_get_current_response` (client.py 291–354): `""` when the driver is
gone, otherwise raw extraction, cleaning when non-empty, and the no-content
sentinel when the final text is empty. -/
def getCurrentResponse (d : Option Driver) : Text :=
  match d with
  | none => []
  | some drv =>
    if cleanedExtract drv ≠ [] then cleanedExtract drv else noContentSentinel

/-! ## Streaming indicator check (`_check_streaming_indicators`,
client.py 266–289) -/

/-- Indicator selectors (client.py 272–278). -/
def streamingIndicators : List String :=
  ["[class*=\x27loading\x27]",
   "[class*=\x27typing\x27]",
   "[class*=\x27generating\x27]",
   "[class*=\x27spinner\x27]",
   ".dots"]

/-- Inner loop: is any element displayed (client.py 282–285)? -/
def anyDisplayed : List Elem → Except Unit Bool
  | [] => pure false
  | e :: rest => do
    let d ← e.displayed
    if d then pure true else anyDisplayed rest

/-- The body of the `try` block (client.py 271–287). -/
def checkIndicatorsExc (drv : Driver) : List String → Except Unit Bool
  | [] => pure false
  | sel :: rest => do
    let es ← drv.findElements sel
    let b ← anyDisplayed es
    if b then pure true else checkIndicatorsExc drv rest

/-- `_check_streaming_indicators` (client.py 266–289): `False` for a gone
driver, and `False` whenever the query raises (client.py 288–289). -/
def checkStreamingIndicators (d : Option Driver) : Bool :=
  match d with
  | none => false
  | some drv =>
    match checkIndicatorsExc drv streamingIndicators with
    | .ok b => b
    | .error _ => false

/-! ## Streaming stability monitor (`_wait_for_streaming_response`,
client.py 227–264)

The loop guard is `time.time() - start_time < max_wait` and each iteration
ends with `time.sleep(1)`; with extraction itself instantaneous, iteration
`k` (1-based) starts at elapsed `k - 1` seconds, so exactly the ticks
`1 .. maxWait` run.  Per-tick extraction results and indicator answers are
scripted as functions of the tick number. -/

structure MonState where
  lastResponse : Text
  stableCount : Nat
deriving DecidableEq

def initMon : MonState := ⟨[], 0⟩

/-- One loop iteration (client.py 237–253): `.inl t` means the function
returns `t` (completion), `.inr` is the state carried to the next tick. -/
def monStep (required : Nat) (t : Text) (streaming : Bool) (s : MonState) :
    Text ⊕ MonState :=
  if t = s.lastResponse then
    if streaming = false ∧ required ≤ s.stableCount + 1 then .inl t
    else .inr ⟨s.lastResponse, s.stableCount + 1⟩
  else .inr ⟨t, 0⟩

/-- Run the loop over a finite script of (text, indicator) ticks, the first
being tick `k`: `.inl (j, t)` means completion at tick `j` with text `t`,
`.inr s` means the script was exhausted in state `s`. -/
def runScript (required : Nat) :
    List (Text × Bool) → MonState → Nat → (Nat × Text) ⊕ MonState
  | [], s, _ => .inr s
  | (t, b) :: rest, s, k =>
    match monStep required t b s with
    | .inl v => .inl (k, v)
    | .inr s2 => runScript required rest s2 (k + 1)

/-- Sentinel returned on timeout with no recorded content
(client.py 260–264). -/
def timeoutSentinel : Text := "Response timeout - no content retrieved".toList

/-- The script of ticks `1 .. maxWait`. -/
def mkScript (maxWait : Nat) (poll : Nat → Text) (ind : Nat → Bool) :
    List (Text × Bool) :=
  (List.range maxWait).map (fun i => (poll (i + 1), ind (i + 1)))

inductive WaitOutcome where
  | completed
  | timeoutContent
  | timeoutEmpty
deriving DecidableEq

/-- `_wait_for_streaming_response` together with a tag recording which
return site produced the result: completion (client.py 249), timeout with
recorded content, or timeout with empty `last_response` yielding the
timeout sentinel (client.py 260–264). -/
def waitForStreamingResponseTagged (required maxWait : Nat)
    (poll : Nat → Text) (ind : Nat → Bool) : WaitOutcome × Text :=
  match runScript required (mkScript maxWait poll ind) initMon 1 with
  | .inl (_, v) => (.completed, v)
  | .inr s =>
    if s.lastResponse ≠ [] then (.timeoutContent, s.lastResponse)
    else (.timeoutEmpty, timeoutSentinel)

/-- `_wait_for_streaming_response` (client.py 227–264). -/
def waitForStreamingResponse (required maxWait : Nat)
    (poll : Nat → Text) (ind : Nat → Bool) : Text :=
  (waitForStreamingResponseTagged required maxWait poll ind).2

/-! ## Concrete instances used in the claim analyses -/

/-- Scripted tick text `"A"`. -/
def tickA : Text := "A".toList

/-- Scripted tick text `"B"`. -/
def tickB : Text := "B".toList

/-- A driver whose every query raises. -/
def errDriver : Driver := ⟨fun _ => .error ()⟩

/-- A long element text, stripped form equal to itself. -/
def longMatchedText : Text := "this is the longest matched element text by far".toList

/-- A shorter element text. -/
def shortMatchedText : Text := "short answer".toList

/-- Two elements matched by one selector: the long text first, the short
text last. -/
def twoElems : List Elem :=
  [⟨.ok longMatchedText, .ok false⟩, ⟨.ok shortMatchedText, .ok false⟩]

/-- A driver on which only the first response selector matches anything,
yielding `twoElems`. -/
def twoElemDriver : Driver :=
  ⟨fun sel => if sel = "[data-testid*=\x27response\x27]" then .ok twoElems else .ok []⟩

/-- The spec's echo-removal example input. -/
def c7Input : Text :=
  ("Is photosynthesis efficient?\nBased on the provided sources, photosynthesis converts...").toList

/-- A body whose lines are: a short question, a 45-character plain line,
and a short answer-marker line; it contains no UI artifact. -/
def c8Body : Text :=
  "Why?\n".toList ++ List.replicate 45 'b' ++ "\nBased on tail".toList

/-- The body followed by one trailing UI-artifact-only line. -/
def c8Input : Text := c8Body ++ "\ncopy_all".toList

/-- A one-line answer (over 50 characters, answer marker) followed by one
trailing UI-artifact-only line. -/
def c8WitnessInput : Text :=
  "Based on the sources, the method works well in practice overall.\ncopy_all".toList

/-! ## Split/join lemmas -/

section Lemmas

theorem strip_length_le (l : Text) : (strip l).length ≤ l.length := by
  unfold strip
  calc ((l.dropWhile isPySpace).reverse.dropWhile isPySpace).reverse.length
      = ((l.dropWhile isPySpace).reverse.dropWhile isPySpace).length := by
        simp
    _ ≤ (l.dropWhile isPySpace).reverse.length :=
        (List.dropWhile_sublist _).length_le
    _ = (l.dropWhile isPySpace).length := by simp
    _ ≤ l.length := (List.dropWhile_sublist _).length_le

theorem pySplitAux_ne_nil (sep : Text) (fuel : Nat) (l : Text) :
    pySplitAux sep fuel l ≠ [] := by
  match fuel, l with
  | _, [] =>
    rw [pySplitAux]
    simp
  | 0, c :: rest =>
    rw [pySplitAux]
    · simp
    · simp
  | fuel + 1, c :: rest =>
    rw [pySplitAux]
    split
    · simp
    · split <;> simp

theorem pySplit_ne_nil (sep l : Text) : pySplit sep l ≠ [] :=
  pySplitAux_ne_nil sep l.length l

theorem joinSep_cons_cons (sep x y : Text) (ys : List Text) :
    joinSep sep (x :: y :: ys) = x ++ sep ++ joinSep sep (y :: ys) := rfl

/-- `join` after `split` restores the text. -/
theorem joinSep_pySplitAux (sep : Text) (n : Nat) :
    ∀ l : Text, l.length ≤ n → joinSep sep (pySplitAux sep n l) = l := by
  induction n with
  | zero =>
    intro l hl
    have : l = [] := List.length_eq_zero.mp (Nat.le_zero.mp hl)
    subst this
    rw [pySplitAux]
    rfl
  | succ n ih =>
    intro l hl
    cases l with
    | nil =>
      rw [pySplitAux]
      rfl
    | cons c rest =>
      rw [pySplitAux]
      by_cases h : sep ≠ [] ∧ sep.isPrefixOf (c :: rest)
      · simp only [if_pos h]
        have hsep1 : 1 ≤ sep.length := by
          cases sep with
          | nil => exact absurd rfl h.1
          | cons a b => simp
        have hlen : ((c :: rest).drop sep.length).length ≤ n := by
          simp only [List.length_drop, List.length_cons] at *
          omega
        have ihd := ih _ hlen
        cases hsplit : pySplitAux sep n ((c :: rest).drop sep.length) with
        | nil => exact absurd hsplit (pySplitAux_ne_nil _ _ _)
        | cons p ps =>
          rw [hsplit] at ihd
          rw [joinSep_cons_cons, ihd]
          have hpre : sep <+: (c :: rest) := List.isPrefixOf_iff_prefix.mp h.2
          obtain ⟨t, ht⟩ := hpre
          rw [← ht, List.drop_left' rfl]
          simp
      · simp only [if_neg h]
        have ihr := ih rest (by simp at hl; omega)
        cases hsplit : pySplitAux sep n rest with
        | nil => exact absurd hsplit (pySplitAux_ne_nil _ _ _)
        | cons p ps =>
          rw [hsplit] at ihr
          cases ps with
          | nil =>
            simp only [joinSep] at ihr ⊢
            simp [ihr]
          | cons q qs =>
            simp only [joinSep_cons_cons] at ihr ⊢
            simp only [List.cons_append]
            rw [ihr]

/-- The split pieces of a text at any sufficient fuel agree with the split
at fuel exactly the length. -/
theorem pySplitAux_fuel_ge (sep : Text) :
    ∀ (n : Nat) (l : Text), l.length ≤ n → pySplitAux sep n l = pySplit sep l := by
  have key : ∀ (n m : Nat) (l : Text), l.length ≤ n → l.length ≤ m →
      pySplitAux sep n l = pySplitAux sep m l := by
    intro n
    induction n with
    | zero =>
      intro m l hn _
      have : l = [] := List.length_eq_zero.mp (Nat.le_zero.mp hn)
      subst this
      rw [pySplitAux]
      cases m <;> rw [pySplitAux]
    | succ n ih =>
      intro m l hn hm
      cases l with
      | nil =>
        rw [pySplitAux]
        cases m <;> rw [pySplitAux]
      | cons c rest =>
        cases m with
        | zero => simp at hm
        | succ m =>
          rw [pySplitAux, pySplitAux]
          by_cases h : sep ≠ [] ∧ sep.isPrefixOf (c :: rest)
          · simp only [if_pos h]
            have hsep1 : 1 ≤ sep.length := by
              cases sep with
              | nil => exact absurd rfl h.1
              | cons a b => simp
            have hlen : ((c :: rest).drop sep.length).length ≤ n := by
              simp only [List.length_drop, List.length_cons] at *
              omega
            have hlenm : ((c :: rest).drop sep.length).length ≤ m := by
              simp only [List.length_drop, List.length_cons] at *
              omega
            rw [ih m _ hlen hlenm]
          · simp only [if_neg h]
            have hlen : rest.length ≤ n := by simp at hn; omega
            have hlenm : rest.length ≤ m := by simp at hm; omega
            rw [ih m rest hlen hlenm]
  intro n l hn
  exact key n l.length l hn (Nat.le_refl _)

theorem joinSep_pySplit (sep l : Text) : joinSep sep (pySplit sep l) = l :=
  joinSep_pySplitAux sep l.length l (Nat.le_refl _)

theorem joinSep_length_le_cons (sep x : Text) (xs : List Text) :
    (joinSep sep xs).length ≤ (joinSep sep (x :: xs)).length := by
  cases xs with
  | nil => simp [joinSep]
  | cons y ys =>
    rw [joinSep_cons_cons]
    simp only [List.length_append]
    omega

/-- Dropping pieces can only shorten the joined text. -/
theorem joinSep_length_le_of_sublist (sep : Text) {l₁ l₂ : List Text}
    (h : List.Sublist l₁ l₂) :
    (joinSep sep l₁).length ≤ (joinSep sep l₂).length := by
  induction h with
  | slnil => simp
  | cons a h ih =>
    exact ih.trans (joinSep_length_le_cons sep a _)
  | cons₂ a h ih =>
    rename_i m₁ m₂
    cases m₁ with
    | nil =>
      cases m₂ with
      | nil => exact Nat.le_refl _
      | cons b bs =>
        rw [joinSep_cons_cons]
        simp only [joinSep, List.length_append]
        omega
    | cons b bs =>
      cases m₂ with
      | nil => exact absurd (List.sublist_nil.mp h) (by simp)
      | cons c cs =>
        rw [joinSep_cons_cons, joinSep_cons_cons]
        simp only [List.length_append]
        omega

/-- Each piece is no longer than the joined whole. -/
theorem length_le_joinSep_of_mem (sep : Text) {p : Text} {l : List Text}
    (h : p ∈ l) : p.length ≤ (joinSep sep l).length := by
  induction l with
  | nil => cases h
  | cons x xs ih =>
    rcases List.mem_cons.mp h with rfl | hmem
    · cases xs with
      | nil => simp [joinSep]
      | cons y ys =>
        rw [joinSep_cons_cons]
        simp only [List.length_append]
        omega
    · exact (ih hmem).trans (joinSep_length_le_cons sep x xs)

end Lemmas

/-! ## Length lemmas for the cleaner -/

section LengthLemmas

theorem stripTrailingArtifacts_length_le (t : Text) :
    (stripTrailingArtifacts t).length ≤ t.length := by
  unfold stripTrailingArtifacts
  generalize uiArtifacts = arts
  induction arts generalizing t with
  | nil => exact Nat.le_refl _
  | cons a as ih =>
    simp only [List.foldl_cons]
    refine (ih _).trans ?_
    split
    · refine (strip_length_le _).trans ?_
      simp [List.length_take]
    · exact Nat.le_refl _

theorem dropArtifactLines_length_le (t : Text) :
    (dropArtifactLines t).length ≤ t.length := by
  unfold dropArtifactLines
  refine (strip_length_le _).trans ?_
  have h : (joinSep ['\n'] ((splitLines t).filter (fun l => ¬ isArtifactLine l))).length
      ≤ (joinSep ['\n'] (splitLines t)).length :=
    joinSep_length_le_of_sublist ['\n'] (List.filter_sublist (splitLines t))
  calc (joinLines ((splitLines t).filter (fun l => ¬ isArtifactLine l))).length
      ≤ (joinLines (splitLines t)).length := h
    _ = t.length := by rw [joinLines, splitLines, joinSep_pySplit]

theorem echoRemoved_length_le (t : Text) :
    (echoRemoved t).length ≤ t.length := by
  unfold echoRemoved
  refine (strip_length_le _).trans ?_
  calc (joinLines ((splitLines t).drop (echoStartIndex (splitLines t)))).length
      ≤ (joinLines (splitLines t)).length :=
        joinSep_length_le_of_sublist _ (List.drop_sublist _ _)
    _ = t.length := by rw [joinLines, splitLines, joinSep_pySplit]

theorem dropFirstLine_length_le (t : Text) :
    (strip (joinLines ((splitLines t).drop 1))).length ≤ t.length := by
  refine (strip_length_le _).trans ?_
  calc (joinLines ((splitLines t).drop 1)).length
      ≤ (joinLines (splitLines t)).length :=
        joinSep_length_le_of_sublist _ (List.drop_sublist _ _)
    _ = t.length := by rw [joinLines, splitLines, joinSep_pySplit]

theorem firstBigParagraph_length_le {t p : Text}
    (h : firstBigParagraph t = some p) : p.length ≤ t.length := by
  unfold firstBigParagraph at h
  cases hfind : (pySplit ['\n', '\n'] t).find? (fun p => 100 < (strip p).length) with
  | none => rw [hfind] at h; simp at h
  | some q =>
    rw [hfind] at h
    rw [Option.map_some'] at h
    rw [Option.some_inj] at h
    have hmem : q ∈ pySplit ['\n', '\n'] t := List.mem_of_find?_eq_some hfind
    have hq : q.length ≤ t.length := by
      have := length_le_joinSep_of_mem ['\n', '\n'] hmem
      rwa [joinSep_pySplit] at this
    rw [← h]
    exact (strip_length_le q).trans hq

theorem cleanTier4_length_le (t : Text) :
    (cleanTier4 t).length ≤ t.length := by
  unfold cleanTier4
  split
  · cases hp : firstBigParagraph t with
    | none => exact echoRemoved_length_le t
    | some p => exact firstBigParagraph_length_le hp
  · exact echoRemoved_length_le t

theorem cleanTier5_length_le (t : Text) :
    (cleanTier5 t).length ≤ t.length := by
  unfold cleanTier5
  split
  · split
    · exact dropFirstLine_length_le t
    · exact Nat.le_refl _
  · exact Nat.le_refl _

end LengthLemmas

/-! ## Substring and fixpoint lemmas -/

section InfixLemmas

theorem containsSub_iff_occurs (sub l : Text) :
    containsSub sub l = true ↔ sub <:+: l := by
  induction l with
  | nil =>
    simp only [containsSub, List.isEmpty_iff]
    constructor
    · intro h; simp [h]
    · intro h; exact List.eq_nil_of_infix_nil h
  | cons c rest ih =>
    simp only [containsSub, Bool.or_eq_true, List.isPrefixOf_iff_prefix, ih,
      List.infix_cons_iff]

theorem strip_prefix_dropWhile (l : Text) :
    strip l <+: l.dropWhile isPySpace := by
  unfold strip
  have h : List.IsSuffix ((l.dropWhile isPySpace).reverse.dropWhile isPySpace)
      (l.dropWhile isPySpace).reverse := List.dropWhile_suffix _
  obtain ⟨t, ht⟩ := h
  refine ⟨t.reverse, ?_⟩
  have h2 := congrArg List.reverse ht
  simp at h2
  exact h2

theorem strip_occurs_in (l : Text) : strip l <:+: l :=
  ((strip_prefix_dropWhile l).isInfix).trans (List.dropWhile_suffix _).isInfix

theorem mem_infix_joinSep (sep : Text) {p : Text} {L : List Text}
    (h : p ∈ L) : p <:+: joinSep sep L := by
  induction L with
  | nil => cases h
  | cons x xs ih =>
    rcases List.mem_cons.mp h with rfl | hmem
    · cases xs with
      | nil => exact List.infix_refl _
      | cons y ys =>
        rw [joinSep_cons_cons]
        exact ⟨[], sep ++ joinSep sep (y :: ys), by simp⟩
    · cases xs with
      | nil => cases hmem
      | cons y ys =>
        rw [joinSep_cons_cons]
        refine (ih hmem).trans ?_
        exact ⟨x ++ sep, [], by simp⟩

/-- A line of a text is an infix of the text. -/
theorem line_occurs_in {p t : Text} (h : p ∈ splitLines t) : p <:+: t := by
  have := mem_infix_joinSep ['\n'] h
  rwa [show joinSep ['\n'] (splitLines t) = t from joinSep_pySplit _ _] at this

/-- Texts whose lower-cased form has no occurrence of any UI artifact are
untouched by the trailing-artifact strip. -/
theorem stripTrailingArtifacts_eq_self {t : Text}
    (h : ∀ a ∈ uiArtifacts, containsSub a (lower t) = false) :
    stripTrailingArtifacts t = t := by
  unfold stripTrailingArtifacts
  have hsuf : ∀ a ∈ uiArtifacts, a.isSuffixOf t = false := by
    intro a ha
    by_contra hne
    have hs : a.isSuffixOf t = true := by
      cases hb : a.isSuffixOf t
      · exact absurd hb hne
      · rfl
    have hsuffix : a <:+ t := (List.isSuffixOf_iff_suffix).mp hs
    have hlow : lower a <:+ lower t := hsuffix.map Char.toLower
    have hartlow : lower a = a := by
      revert ha
      have : ∀ a ∈ uiArtifacts, lower a = a := by decide
      exact this a
    rw [hartlow] at hlow
    have : containsSub a (lower t) = true :=
      (containsSub_iff_occurs _ _).mpr hlow.isInfix
    rw [h a ha] at this
    exact Bool.noConfusion this
  revert hsuf
  generalize uiArtifacts = arts
  induction arts with
  | nil => intro _; rfl
  | cons a as ih =>
    intro hsuf
    simp only [List.foldl_cons]
    rw [hsuf a (List.mem_cons_self a as)]
    simp only [Bool.false_eq_true, if_false]
    exact ih (fun b hb => hsuf b (List.mem_cons_of_mem a hb))

/-- Lines of an artifact-free text are not artifact lines. -/
theorem isArtifactLine_eq_false {l t : Text}
    (hl : l ∈ splitLines t)
    (h : ∀ a ∈ uiArtifacts, containsSub a (lower t) = false) :
    isArtifactLine l = false := by
  have hinf : lower (strip l) <:+: lower t :=
    ((strip_occurs_in l).trans (line_occurs_in hl)).map Char.toLower
  have hnone : ∀ a ∈ uiArtifacts, containsSub a (lower (strip l)) = false := by
    intro a ha
    cases hb : containsSub a (lower (strip l))
    · rfl
    · have : a <:+: lower t :=
        ((containsSub_iff_occurs _ _).mp hb).trans hinf
      have := (containsSub_iff_occurs _ _).mpr this
      rw [h a ha] at this
      exact Bool.noConfusion this
  unfold isArtifactLine
  have hnotmem : lower (strip l) ∉ uiArtifacts := by
    intro hmem
    have := hnone _ hmem
    rw [(containsSub_iff_occurs _ _).mpr (List.infix_refl _)] at this
    exact Bool.noConfusion this
  have hany : uiArtifacts.any (fun a => containsSub a (lower (strip l))) = false := by
    rw [List.any_eq_false]
    intro a ha
    rw [hnone a ha]
    exact Bool.false_ne_true
  simp [hany, hnotmem]


/-- A cleaned-shape text is a fixed point of the cleaner: stripped, at
least 50 characters, free of UI artifacts, and opening with an
answer-start line. -/
theorem cleanResponseText_fixpoint {y : Text}
    (h1 : strip y = y)
    (h2 : 50 ≤ y.length)
    (h3 : isAnswerStart (firstLine y) = true)
    (h4 : ∀ a ∈ uiArtifacts, containsSub a (lower y) = false) :
    cleanResponseText y = y := by
  have hne : y ≠ [] := by
    intro hy
    rw [hy] at h2
    simp at h2
  have hstrip : stripTrailingArtifacts y = y := stripTrailingArtifacts_eq_self h4
  have hfilter : (splitLines y).filter (fun l => ¬ isArtifactLine l) = splitLines y := by
    rw [List.filter_eq_self]
    intro l hl
    rw [isArtifactLine_eq_false hl h4]
    rfl
  have hdrop : dropArtifactLines y = y := by
    unfold dropArtifactLines
    rw [hfilter, joinLines, splitLines, joinSep_pySplit, h1]
  have hstart : echoStartIndex (splitLines y) = 0 := by
    unfold echoStartIndex
    cases hsplit : splitLines y with
    | nil => exact absurd hsplit (pySplit_ne_nil _ _)
    | cons l0 rest =>
      have hl0 : l0 = firstLine y := by
        unfold firstLine
        rw [hsplit]
      rw [List.findIdx?_cons, hl0, h3]
      simp
  have hecho : echoRemoved y = y := by
    unfold echoRemoved
    rw [hstart, List.drop_zero, joinLines, splitLines, joinSep_pySplit, h1]
  have htier4 : cleanTier4 y = y := by
    unfold cleanTier4
    rw [hecho]
    have : ¬ (y = [] ∨ y.length < 50) := by
      push_neg
      exact ⟨hne, by omega⟩
    rw [if_neg this]
  unfold cleanResponseText
  rw [if_neg hne, hstrip, hdrop, htier4]
  have : ¬ (y = [] ∨ y.length < 50) := by
    push_neg
    exact ⟨hne, by omega⟩
  rw [if_neg this]

end InfixLemmas

/-! ## Longest-candidate fold lemma -/

section FoldLemmas

theorem longestCandidate_foldl_spec (l : List Text) (b : Text) :
    (∀ c ∈ l, c.length ≤ (l.foldl (fun b t => if b.length < t.length then t else b) b).length) ∧
    b.length ≤ (l.foldl (fun b t => if b.length < t.length then t else b) b).length ∧
    (l.foldl (fun b t => if b.length < t.length then t else b) b = b ∨
      ((l.foldl (fun b t => if b.length < t.length then t else b) b) ∈ l ∧
        b.length < (l.foldl (fun b t => if b.length < t.length then t else b) b).length ∧
        l.find? (fun c => c.length == (l.foldl (fun b t => if b.length < t.length then t else b) b).length)
          = some (l.foldl (fun b t => if b.length < t.length then t else b) b))) := by
  induction l generalizing b with
  | nil => exact ⟨by simp, Nat.le_refl _, Or.inl rfl⟩
  | cons c rest ih =>
    simp only [List.foldl_cons]
    obtain ⟨ihmem, ihacc, ihcases⟩ := ih (if b.length < c.length then c else b)
    have hacc_c : c.length ≤ (if b.length < c.length then c else b).length := by
      split <;> omega
    have hacc_b : b.length ≤ (if b.length < c.length then c else b).length := by
      split <;> omega
    refine ⟨?_, hacc_b.trans ihacc, ?_⟩
    · intro d hd
      rcases List.mem_cons.mp hd with rfl | hmem
      · exact hacc_c.trans ihacc
      · exact ihmem d hmem
    · rcases ihcases with heq | ⟨hmem, hlt, hfind⟩
      · rw [heq]
        by_cases hbc : b.length < c.length
        · rw [if_pos hbc]
          refine Or.inr ⟨List.mem_cons_self _ _, hbc, ?_⟩
          rw [List.find?_cons_of_pos]
          simp
        · rw [if_neg hbc]
          exact Or.inl rfl
      · refine Or.inr ⟨List.mem_cons_of_mem c hmem, ?_, ?_⟩
        · have : b.length ≤ (if b.length < c.length then c else b).length := hacc_b
          omega
        · rw [List.find?_cons_of_neg, hfind]
          have hcle : c.length ≤ (if b.length < c.length then c else b).length := hacc_c
          simp only [beq_iff_eq]
          omega

end FoldLemmas

/-! ## Monitor lemmas -/

section MonitorLemmas

/-- Whenever a tick returns (completes), it returns the tick's text. -/
theorem monStep_inl_eq {required : Nat} {t : Text} {b : Bool}
    {s : MonState} {w : Text} (h : monStep required t b s = .inl w) : w = t := by
  unfold monStep at h
  split at h
  · split at h
    · injection h with h2
      exact h2.symm
    · exact absurd h (by simp)
  · exact absurd h (by simp)

/-- After any tick, `last_response` is the tick's text. -/
theorem monStep_inr_last {required : Nat} {t : Text} {b : Bool}
    {s s2 : MonState} (h : monStep required t b s = .inr s2) :
    s2.lastResponse = t := by
  unfold monStep at h
  split at h
  · split at h
    · exact absurd h (by simp)
    · injection h with h2
      rw [← h2]
      rename_i heq _
      exact heq.symm
  · injection h with h2
    rw [← h2]

/-- If every scripted text is non-empty and either the state already
records content or at least one tick remains, a timed-out run ends with
non-empty recorded content. -/
theorem runScript_inr_ne_nil (required : Nat) :
    ∀ (L : List (Text × Bool)) (s : MonState) (k : Nat),
      (∀ p ∈ L, p.1 ≠ []) → (s.lastResponse ≠ [] ∨ L ≠ []) →
      ∀ s', runScript required L s k = .inr s' → s'.lastResponse ≠ [] := by
  intro L
  induction L with
  | nil =>
    intro s k hall hor s' hrun
    rcases hor with h | h
    · have : s = s' := by
        unfold runScript at hrun
        injection hrun
      rwa [← this]
    · exact absurd rfl h
  | cons p rest ih =>
    intro s k hall hor s' hrun
    obtain ⟨t, b⟩ := p
    have ht : t ≠ [] := hall (t, b) (List.mem_cons_self _ _)
    unfold runScript at hrun
    split at hrun
    · exact absurd hrun (by simp)
    · rename_i s2 hstep
      have hs2 : s2.lastResponse ≠ [] := by
        rw [monStep_inr_last hstep]
        exact ht
      exact ih s2 (k + 1) (fun q hq => hall q (List.mem_cons_of_mem _ hq))
        (Or.inl hs2) s' hrun

/-- A run over a constant script can only complete with the constant and
can only time out with the constant recorded (once recorded). -/
theorem runScript_const {required : Nat} {c : Text} :
    ∀ (L : List (Text × Bool)) (s : MonState) (k : Nat),
      (∀ p ∈ L, p.1 = c) → s.lastResponse = c →
      (∀ j v, runScript required L s k = .inl (j, v) → v = c) ∧
      (∀ s', runScript required L s k = .inr s' → s'.lastResponse = c) := by
  intro L
  induction L with
  | nil =>
    intro s k hall hlast
    constructor
    · intro j v hrun
      unfold runScript at hrun
      exact absurd hrun (by simp)
    · intro s' hrun
      have : s = s' := by
        unfold runScript at hrun
        injection hrun
      rwa [← this]
  | cons p rest ih =>
    intro s k hall hlast
    obtain ⟨t, b⟩ := p
    have ht : t = c := hall (t, b) (List.mem_cons_self _ _)
    have hrest : ∀ p ∈ rest, p.1 = c := fun q hq => hall q (List.mem_cons_of_mem _ hq)
    constructor
    · intro j v hrun
      unfold runScript at hrun
      split at hrun
      · rename_i w hstep
        have hw : w = t := monStep_inl_eq hstep
        have hkv : (k, w) = (j, v) := by injection hrun with h2
        have hv : v = w := by
          injection hkv with h1 h2
          exact h2.symm
        rw [hv, hw, ht]
      · rename_i s2 hstep
        have hs2 : s2.lastResponse = c := by
          rw [monStep_inr_last hstep, ht]
        exact (ih s2 (k + 1) hrest hs2).1 j v hrun
    · intro s' hrun
      unfold runScript at hrun
      split at hrun
      · exact absurd hrun (by simp)
      · rename_i s2 hstep
        have hs2 : s2.lastResponse = c := by
          rw [monStep_inr_last hstep, ht]
        exact (ih s2 (k + 1) hrest hs2).2 s' hrun

theorem getCurrentResponse_ne_nil (drv : Driver) :
    getCurrentResponse (some drv) ≠ [] := by
  show (if cleanedExtract drv ≠ [] then cleanedExtract drv else noContentSentinel) ≠ []
  split
  · assumption
  · decide

theorem getCurrentResponse_of_extract_nil {drv : Driver}
    (h : extractRaw drv = []) :
    getCurrentResponse (some drv) = noContentSentinel := by
  show (if cleanedExtract drv ≠ [] then cleanedExtract drv else noContentSentinel)
      = noContentSentinel
  have hce : cleanedExtract drv = [] := by
    unfold cleanedExtract
    rw [h]
    simp
  rw [hce]
  simp

theorem mkScript_mem_text {maxWait : Nat} {poll : Nat → Text} {ind : Nat → Bool}
    {p : Text × Bool} (h : p ∈ mkScript maxWait poll ind) :
    ∃ k, p.1 = poll k := by
  unfold mkScript at h
  obtain ⟨i, _, hp⟩ := List.mem_map.mp h
  exact ⟨i + 1, by rw [← hp]⟩

/-- When every poll yields the same non-empty text and at least one tick
runs, the loop returns that text, whether by completion or by timeout. -/
theorem waitForStreamingResponse_const (required maxWait : Nat)
    (poll : Nat → Text) (ind : Nat → Bool) (c : Text)
    (hc : c ≠ []) (hmax : 1 ≤ maxWait) (hpoll : ∀ k, poll k = c) :
    waitForStreamingResponse required maxWait poll ind = c := by
  unfold waitForStreamingResponse waitForStreamingResponseTagged
  have hallL : ∀ q ∈ mkScript maxWait poll ind, q.1 = c := by
    intro q hq
    obtain ⟨k, hk⟩ := mkScript_mem_text hq
    rw [hk, hpoll k]
  cases hL : mkScript maxWait poll ind with
  | nil =>
    exfalso
    have := congrArg List.length hL
    simp [mkScript] at this
    omega
  | cons p rest =>
    obtain ⟨t, b⟩ := p
    have ht : t = c := by
      have : (t, b) ∈ mkScript maxWait poll ind := by
        rw [hL]
        exact List.mem_cons_self _ _
      exact hallL _ this
    have hrest : ∀ q ∈ rest, q.1 = c := by
      intro q hq
      have : q ∈ mkScript maxWait poll ind := by
        rw [hL]
        exact List.mem_cons_of_mem _ hq
      exact hallL _ this
    have hstep : monStep required t b initMon = .inr ⟨t, 0⟩ := by
      unfold monStep
      have hne : ¬ (t = initMon.lastResponse) := by
        rw [ht]
        exact hc
      rw [if_neg hne]
    have hrun1 : runScript required ((t, b) :: rest) initMon 1 =
        runScript required rest ⟨t, 0⟩ 2 := by
      simp only [runScript, hstep]
    rw [hrun1]
    have hconst := @runScript_const required c rest ⟨t, 0⟩ 2 hrest ht
    cases hres : runScript required rest ⟨t, 0⟩ 2 with
    | inl jv =>
      obtain ⟨j, v⟩ := jv
      exact hconst.1 j v hres
    | inr s' =>
      have hlast : s'.lastResponse = c := hconst.2 s' hres
      have hne : s'.lastResponse ≠ [] := by
        rw [hlast]
        exact hc
      show (if s'.lastResponse ≠ [] then (WaitOutcome.timeoutContent, s'.lastResponse)
        else (WaitOutcome.timeoutEmpty, timeoutSentinel)).2 = c
      rw [if_pos hne]
      exact hlast

end MonitorLemmas

/-! ## Claim analyses -/

/-- Claim C1, counterexample.  With `requiredStableTicks = 3` and the
indicator always false, the scripted sequence `[A, A, B, B, B]` does not
complete at tick 5 (nor at any earlier tick): the run exhausts the five
ticks in state `⟨B, 2⟩`, because `stable_count` is 0 at the first sighting
of a text and only reaches 3 on its fourth consecutive tick.  Likewise
`[A, A, A]` does not complete at tick 3. -/
theorem c1_counterexample :
    runScript 3 [(tickA, false), (tickA, false), (tickB, false), (tickB, false),
        (tickB, false)] initMon 1 = .inr ⟨tickB, 2⟩ ∧
    (∀ v, runScript 3 [(tickA, false), (tickA, false), (tickB, false), (tickB, false),
        (tickB, false)] initMon 1 ≠ .inl (5, v)) ∧
    runScript 3 [(tickA, false), (tickA, false), (tickA, false)] initMon 1
      = .inr ⟨tickA, 2⟩ ∧
    (∀ v, runScript 3 [(tickA, false), (tickA, false), (tickA, false)] initMon 1
      ≠ .inl (3, v)) := by
  have h5 : runScript 3 [(tickA, false), (tickA, false), (tickB, false), (tickB, false),
      (tickB, false)] initMon 1 = .inr ⟨tickB, 2⟩ := by decide
  have h3 : runScript 3 [(tickA, false), (tickA, false), (tickA, false)] initMon 1
      = .inr ⟨tickA, 2⟩ := by decide
  refine ⟨h5, ?_, h3, ?_⟩
  · intro v hv
    rw [h5] at hv
    exact Sum.noConfusion hv
  · intro v hv
    rw [h3] at hv
    exact Sum.noConfusion hv

/-- Claim C1, amended.  With `requiredStableTicks = 3` and the indicator
always false, completion requires the final text to be seen on
`requiredStableTicks + 1` consecutive ticks: `[A, A, B, B, B, B]` completes
exactly at tick 6 returning `B`, and `[A, A, A, A]` completes exactly at
tick 4 returning `A` (`stable_count` is incremented when the tick text
equals `last_response` and reset to 0 with `last_response` updated when it
differs). -/
theorem c1_amended :
    runScript 3 [(tickA, false), (tickA, false), (tickB, false), (tickB, false),
        (tickB, false), (tickB, false)] initMon 1 = .inl (6, tickB) ∧
    runScript 3 [(tickA, false), (tickA, false), (tickA, false), (tickA, false)]
        initMon 1 = .inl (4, tickA) := by
  decide

/-- Claim C2, counterexample.  On `twoElemDriver` the first response
selector matches two elements whose texts are `longMatchedText` then
`shortMatchedText` (both already stripped), yet extraction returns the
short one: the selector loop inspects only the LAST element matched by
each selector (`elements[-1]`, client.py 315), not all of them, so the
longest matched text is not returned. -/
theorem c2_counterexample :
    twoElemDriver.findElements "[data-testid*=\x27response\x27]" = .ok twoElems ∧
    twoElems.map Elem.text = [.ok longMatchedText, .ok shortMatchedText] ∧
    strip longMatchedText = longMatchedText ∧
    extractRaw twoElemDriver = shortMatchedText ∧
    shortMatchedText.length < longMatchedText.length := by
  refine ⟨rfl, rfl, by decide, by decide, by decide⟩

/-- Claim C2, amended.  Among the per-selector candidates that the loop
actually compares — the stripped text of the last element matched by each
selector, in priority order — extraction returns the longest one, and on a
length tie the first-discovered wins, whenever some candidate is
non-empty. -/
theorem c2_amended (drv : Driver) (h : ∃ c ∈ candidates drv, c ≠ []) :
    extractRaw drv ∈ candidates drv ∧
    (∀ c ∈ candidates drv, c.length ≤ (extractRaw drv).length) ∧
    (candidates drv).find? (fun c => c.length == (extractRaw drv).length)
      = some (extractRaw drv) := by
  obtain ⟨c0, hc0, hc0ne⟩ := h
  obtain ⟨hmem, hacc, hcases⟩ := longestCandidate_foldl_spec (candidates drv) []
  have hpos : 0 < (longestCandidate (candidates drv)).length := by
    have h1 := hmem c0 hc0
    have h2 : 0 < c0.length := by
      cases c0 with
      | nil => exact absurd rfl hc0ne
      | cons a l => simp
    unfold longestCandidate
    omega
  have hne : longestCandidate (candidates drv) ≠ [] := by
    intro hl
    rw [hl] at hpos
    simp at hpos
  have hext : extractRaw drv = longestCandidate (candidates drv) := by
    unfold extractRaw
    rw [if_neg hne]
  rcases hcases with heq | ⟨hin, _, hfind⟩
  · exfalso
    unfold longestCandidate at hne
    exact hne heq
  · rw [hext]
    exact ⟨hin, fun c hc => hmem c hc, hfind⟩

/-- Claim C2, witness for the amended claim at `twoElemDriver`. -/
theorem c2_witness :
    extractRaw twoElemDriver ∈ candidates twoElemDriver ∧
    (∀ c ∈ candidates twoElemDriver, c.length ≤ (extractRaw twoElemDriver).length) ∧
    (candidates twoElemDriver).find?
        (fun c => c.length == (extractRaw twoElemDriver).length)
      = some (extractRaw twoElemDriver) :=
  c2_amended twoElemDriver ⟨shortMatchedText, by decide, by decide⟩

/-- Claim C3.  The two sentinels differ; on expiry of the wait window the
loop returns `last_response` when non-empty and the timeout sentinel
otherwise; and when extraction never finds any candidate over a window of
at least one tick, every poll returns the extractor's no-match sentinel
`"No response content found"`, which is what the loop returns — not the
timeout sentinel. -/
theorem c3_timeout_vs_empty_sentinel :
    noContentSentinel ≠ timeoutSentinel ∧
    (∀ (required maxWait : Nat) (poll : Nat → Text) (ind : Nat → Bool) (s : MonState),
      runScript required (mkScript maxWait poll ind) initMon 1 = .inr s →
      waitForStreamingResponse required maxWait poll ind =
        if s.lastResponse ≠ [] then s.lastResponse else timeoutSentinel) ∧
    (∀ (drvs : Nat → Driver) (ind : Nat → Bool) (required maxWait : Nat),
      1 ≤ maxWait → (∀ k, extractRaw (drvs k) = []) →
      waitForStreamingResponse required maxWait
        (fun k => getCurrentResponse (some (drvs k))) ind = noContentSentinel) := by
  refine ⟨by decide, ?_, ?_⟩
  · intro required maxWait poll ind s hrun
    unfold waitForStreamingResponse waitForStreamingResponseTagged
    rw [hrun]
    show (if s.lastResponse ≠ [] then (WaitOutcome.timeoutContent, s.lastResponse)
        else (WaitOutcome.timeoutEmpty, timeoutSentinel)).2
      = if s.lastResponse ≠ [] then s.lastResponse else timeoutSentinel
    by_cases hne : s.lastResponse ≠ []
    · rw [if_pos hne, if_pos hne]
    · rw [if_neg hne, if_neg hne]
  · intro drvs ind required maxWait hmax hextract
    exact waitForStreamingResponse_const required maxWait _ ind noContentSentinel
      (by decide) hmax
      (fun k => getCurrentResponse_of_extract_nil (hextract k))

/-- Claim C3, witness: a two-tick window over a driver whose every query
raises, with the indicator always busy, returns the no-content sentinel. -/
theorem c3_witness :
    waitForStreamingResponse 3 2 (fun _ => getCurrentResponse (some errDriver))
      (fun _ => true) = noContentSentinel := by
  have h0 : extractRaw errDriver = [] := by decide
  exact c3_timeout_vs_empty_sentinel.2.2 (fun _ => errDriver) (fun _ => true) 3 2
    (by decide) (fun _ => h0)

/-- Claim C4, counterexample.  With `requiredStableTicks = 3` and
`[A, A, A]` (indicator true throughout), after tick 3 the state is
`⟨A, 2⟩`: `stable_count = 2 < 3`, so text stability is NOT already
satisfied at tick 3 as the claim asserts — the code resets `stable_count`
to 0 (not 1) on the first sighting of a text. -/
theorem c4_counterexample :
    runScript 3 [(tickA, true), (tickA, true), (tickA, true)] initMon 1
      = .inr ⟨tickA, 2⟩ ∧
    ¬ (3 ≤ 2) := by
  decide

/-- Claim C4, amended.  With `requiredStableTicks = 3` and text `A` on
every tick: when the indicator is true on ticks 1–4 and false at tick 5,
the run has `stable_count = 3 ≥ 3` already after tick 4 yet does not
complete before tick 5, completing exactly at tick 5; with the indicator
false throughout it would complete at tick 4.  Completion requires both
`stable_count ≥ requiredStableTicks` and the busy indicator being
absent. -/
theorem c4_amended :
    runScript 3 [(tickA, true), (tickA, true), (tickA, true), (tickA, true)]
      initMon 1 = .inr ⟨tickA, 3⟩ ∧
    (3 ≤ 3) ∧
    runScript 3 [(tickA, true), (tickA, true), (tickA, true), (tickA, true),
      (tickA, false)] initMon 1 = .inl (5, tickA) ∧
    runScript 3 [(tickA, false), (tickA, false), (tickA, false), (tickA, false)]
      initMon 1 = .inl (4, tickA) := by
  decide

/-- Claim C5.  The cleaner is a total function: for every input string it
returns a string, and its value is always one of the defined tier results:
the untouched input (empty-input guard), the echo-removal result, a
paragraph picked by the big-paragraph fallback, the first-line-dropped
text, or the artifact-stripped text itself. -/
theorem c5_cleaner_total (t : Text) :
    cleanResponseText t = t ∨
    cleanResponseText t = echoRemoved (dropArtifactLines (stripTrailingArtifacts t)) ∨
    (∃ p, firstBigParagraph (dropArtifactLines (stripTrailingArtifacts t)) = some p ∧
      cleanResponseText t = p) ∨
    cleanResponseText t =
      strip (joinLines ((splitLines (dropArtifactLines (stripTrailingArtifacts t))).drop 1)) ∨
    cleanResponseText t = dropArtifactLines (stripTrailingArtifacts t) := by
  unfold cleanResponseText
  split
  · exact Or.inl rfl
  · split
    · unfold cleanTier5
      split
      · split
        · exact Or.inr (Or.inr (Or.inr (Or.inl rfl)))
        · exact Or.inr (Or.inr (Or.inr (Or.inr rfl)))
      · exact Or.inr (Or.inr (Or.inr (Or.inr rfl)))
    · unfold cleanTier4
      split
      · split
        · rename_i p hp
          exact Or.inr (Or.inr (Or.inl ⟨p, hp, rfl⟩))
        · exact Or.inr (Or.inl rfl)
      · exact Or.inr (Or.inl rfl)

/-- Claim C6.  Cleaning never lengthens: for every input, the cleaned
text is at most as long as the input. -/
theorem c6_clean_length_le (t : Text) :
    (cleanResponseText t).length ≤ t.length := by
  unfold cleanResponseText
  split
  · exact Nat.le_refl _
  · have ht2 : (dropArtifactLines (stripTrailingArtifacts t)).length ≤ t.length :=
      (dropArtifactLines_length_le _).trans (stripTrailingArtifacts_length_le t)
    split
    · exact (cleanTier5_length_le _).trans ht2
    · exact (cleanTier4_length_le _).trans ht2

/-- Claim C7.  On the concrete input
`"Is photosynthesis efficient?\nBased on the provided sources,
photosynthesis converts..."` the cleaner drops the question-like first
line: the result starts with `"Based on the provided sources"`. -/
theorem c7_echo_removal_example :
    "Based on the provided sources".toList.isPrefixOf (cleanResponseText c7Input)
      = true := by
  decide

/-- Claim C8, counterexample.  `c8Input` consists of an artifact-free body
followed by a single trailing UI-artifact-only line, yet cleaning it is
not idempotent: the first pass keeps the short question-free second line,
and the second pass drops it via the first-line fallback. -/
theorem c8_counterexample :
    c8Input = c8Body ++ "\ncopy_all".toList ∧
    (∀ a ∈ uiArtifacts, containsSub a (lower c8Body) = false) ∧
    isArtifactLine "copy_all".toList = true ∧
    cleanResponseText (cleanResponseText c8Input) ≠ cleanResponseText c8Input := by
  refine ⟨rfl, by decide, by decide, by decide⟩

/-- Claim C8, amended.  Cleaning is idempotent on an input with trailing
UI-artifact-only lines whenever its cleaned form is in cleaned shape:
stripped, at least 50 characters, free of UI artifacts, and opening with a
line the echo scan recognizes as an answer start. -/
theorem c8_amended (x : Text)
    (h1 : strip (cleanResponseText x) = cleanResponseText x)
    (h2 : 50 ≤ (cleanResponseText x).length)
    (h3 : isAnswerStart (firstLine (cleanResponseText x)) = true)
    (h4 : ∀ a ∈ uiArtifacts, containsSub a (lower (cleanResponseText x)) = false) :
    cleanResponseText (cleanResponseText x) = cleanResponseText x :=
  cleanResponseText_fixpoint h1 h2 h3 h4

/-- Claim C8, witness for the amended claim: a one-line answer with a
trailing artifact line cleans to the answer, and cleaning is idempotent
there. -/
theorem c8_witness :
    cleanResponseText (cleanResponseText c8WitnessInput)
      = cleanResponseText c8WitnessInput :=
  c8_amended c8WitnessInput (by decide) (by decide) (by decide) (by decide)

/-- Claim C9.  If the body of the indicator check raises (any exception
while querying selectors or reading `is_displayed`), the check returns
`false` ("not streaming") instead of propagating the error. -/
theorem c9_indicator_fail_open (drv : Driver) (e : Unit)
    (h : checkIndicatorsExc drv streamingIndicators = .error e) :
    checkStreamingIndicators (some drv) = false := by
  show (match checkIndicatorsExc drv streamingIndicators with
    | .ok b => b
    | .error _ => false) = false
  rw [h]

/-- Claim C9, witness: on a driver whose every query raises, the indicator
check returns `false`. -/
theorem c9_witness : checkStreamingIndicators (some errDriver) = false :=
  c9_indicator_fail_open errDriver () rfl

/-- Claim C10.  With a live driver, extraction always returns a non-empty
string (falling back to the no-content sentinel), so once the window
admits at least one tick, `last_response` is non-empty from the first tick
onward and the wait loop can never take the branch that returns the
timeout sentinel `"Response timeout - no content retrieved"`. -/
theorem c10_no_timeout_sentinel :
    (∀ drv : Driver, getCurrentResponse (some drv) ≠ []) ∧
    (∀ (drvs : Nat → Driver) (ind : Nat → Bool) (required maxWait : Nat),
      1 ≤ maxWait →
      (waitForStreamingResponseTagged required maxWait
        (fun k => getCurrentResponse (some (drvs k))) ind).1
        ≠ WaitOutcome.timeoutEmpty) := by
  constructor
  · exact getCurrentResponse_ne_nil
  · intro drvs ind required maxWait hmax
    unfold waitForStreamingResponseTagged
    cases hres : runScript required
        (mkScript maxWait (fun k => getCurrentResponse (some (drvs k))) ind)
        initMon 1 with
    | inl jv =>
      obtain ⟨j, v⟩ := jv
      intro hcon
      exact WaitOutcome.noConfusion hcon
    | inr s' =>
      have hall : ∀ p ∈ mkScript maxWait
          (fun k => getCurrentResponse (some (drvs k))) ind, p.1 ≠ [] := by
        intro p hp
        obtain ⟨k, hk⟩ := mkScript_mem_text hp
        rw [hk]
        exact getCurrentResponse_ne_nil _
      have hscript_ne : mkScript maxWait
          (fun k => getCurrentResponse (some (drvs k))) ind ≠ [] := by
        intro hnil
        have := congrArg List.length hnil
        simp [mkScript] at this
        omega
      have hne : s'.lastResponse ≠ [] :=
        runScript_inr_ne_nil required _ initMon 1 hall (Or.inr hscript_ne) s' hres
      show (if s'.lastResponse ≠ [] then (WaitOutcome.timeoutContent, s'.lastResponse)
          else (WaitOutcome.timeoutEmpty, timeoutSentinel)).1 ≠ WaitOutcome.timeoutEmpty
      rw [if_pos hne]
      intro hcon
      exact WaitOutcome.noConfusion hcon

/-- Claim C10, witness: a one-tick window over a driver whose every query
raises does not produce the timeout-empty outcome. -/
theorem c10_witness :
    (waitForStreamingResponseTagged 3 1
      (fun _ => getCurrentResponse (some errDriver)) (fun _ => false)).1
      ≠ WaitOutcome.timeoutEmpty :=
  c10_no_timeout_sentinel.2 (fun _ => errDriver) (fun _ => false) 3 1 (by decide)

end NotebookLM
